import Mathlib

/-!
Verification of the dumptrick trick-taking card game server.

The repository ships two generations of the same engine: the modular one
(`src/server/helpers.py`, `enums.py`, `models.py`, `services.py`) and the
standalone `src/server/main.py`.  The card utilities, `Trick.update`, the
dealing algorithm and the suit-following validation are textually identical
between the two; where they differ (phase gating of `play_card`, the round
threshold, per-round score appending) the definitions below follow
`src/server/main.py`, whose `GameController` realises the complete action
surface.  Cards are the same string tokens the Python code uses
(for example "2H", "10D", "QS").
-/

/-! ## Card utilities (src/server/helpers.py, duplicated in src/server/main.py) -/

/-- Fixed display order of suits used as the card sort key (`SUIT_ORDER`). -/
def SUIT_ORDER : List String := [ "D", "C", "H", "S" ]

/-- The 52-card deck in its canonical creation order (`DECK` in main.py /
constants): hearts, diamonds, clubs, spades, ascending rank within suit. -/
def DECK : List String :=
  [ "2H", "3H", "4H", "5H", "6H", "7H", "8H", "9H", "10H", "JH", "QH", "KH", "AH",
    "2D", "3D", "4D", "5D", "6D", "7D", "8D", "9D", "10D", "JD", "QD", "KD", "AD",
    "2C", "3C", "4C", "5C", "6C", "7C", "8C", "9C", "10C", "JC", "QC", "KC", "AC",
    "2S", "3S", "4S", "5S", "6S", "7S", "8S", "9S", "10S", "JS", "QS", "KS", "AS" ]

/-- Rank token of a card: everything but the last character (`card[:-1]`). -/
def rankToken (card : String) : String := String.mk card.data.dropLast

/-- Suit of a card: its last character (`card[-1]`), kept as a (possibly empty)
string so that the empty sentinel card has an empty suit. -/
def get_suit (card : String) : String :=
  String.mk (card.data.drop (card.data.length - 1))

/-- Decimal reading of a digit string, as Python's `int()` on well-formed
numeric tokens.  Malformed tokens (which `int()` would reject) are a
programming-error precondition per the spec and never arise from `DECK`. -/
def decimalValue (cs : List Char) : Nat :=
  cs.foldl (fun n c => n * 10 + (c.toNat - 48)) 0

/-- Numeric value of a rank token, as in `parse_card`: `A`/`K`/`Q`/`J` map to
14/13/12/11, numeric tokens parse directly. -/
def parse_rank (r : String) : Nat :=
  if r = "A" then 14
  else if r = "K" then 13
  else if r = "Q" then 12
  else if r = "J" then 11
  else decimalValue r.data

/-- Numeric rank of a card (`get_rank` / first component of `parse_card`). -/
def get_rank (card : String) : Nat := parse_rank (rankToken card)

/-- Cards of a given suit (`get_cards_of_suit`). -/
def get_cards_of_suit (cards : List String) (suit : String) : List String :=
  cards.filter (fun card => get_suit card == suit)

/-- Comparison used for the winning card of a trick (`is_higher_rank`):
false if `card_a` is empty, true if `card_b` is empty, false when the suits
differ, otherwise numeric rank comparison. -/
def is_higher_rank (card_a card_b : String) : Bool :=
  if card_a = "" then false
  else if card_b = "" then true
  else if get_suit card_a ≠ get_suit card_b then false
  else decide (get_rank card_b < get_rank card_a)

/-- Index rotation helper (`rotate_index`): advance by one modulo `length`. -/
def rotate_index (index length : Nat) : Nat := (index + 1) % length

/-! ## Enums (src/server/enums.py; main.py's `STARTED` is the same phase as
`IN_PROGRESS`) -/

inductive PlayerType where
  | BOT
  | HUMAN
deriving DecidableEq, Repr

inductive GamePhase where
  | NOT_STARTED
  | IN_PROGRESS
  | GAME_COMPLETE
deriving DecidableEq, Repr

inductive TurnPhase where
  | NOT_STARTED
  | TURN_COMPLETE
deriving DecidableEq, Repr

/-! ## Trick (src/server/models.py `Trick`, identical to main.py's `Trick`
with `winner` there named `winner_id` here as in models.py) -/

structure Trick where
  cards : List String := []
  is_last_trick : Bool := false
  leading_suit : String := ""
  winner_id : String := ""
  winning_card : String := ""
deriving DecidableEq, Repr

/-- Trick.update / update_trick: set the leading suit from the first card if
unset, then take over the winning card/player when the new card outranks the
current winning card. -/
def Trick.update (t : Trick) (card player_id : String) : Trick :=
  let t1 := if t.leading_suit = "" then { t with leading_suit := get_suit card } else t
  if is_higher_rank card t1.winning_card then
    { t1 with winning_card := card, winner_id := player_id }
  else t1

/-! ## Player (src/server/models.py `Player` = main.py `Player`; the
websocket transport handle is excluded I/O plumbing and is not modelled) -/

structure Player where
  hand : List String := []
  is_winner : Bool := false
  name : String := ""
  player_id : String := ""
  scores : List Nat := []
  tricks : List Trick := []
  type : PlayerType := PlayerType.HUMAN
deriving DecidableEq, Repr

/-- Player.has_suit (main.py) / has_suit_in_hand (models.py). -/
def Player.has_suit (p : Player) (suit : String) : Bool :=
  p.hand.any (fun card => get_suit card == suit)

/-- Player.reset: clear hand, winner flag, scores and tricks; identity
(id, name, type) is untouched. -/
def Player.reset (p : Player) : Player :=
  { p with hand := [], is_winner := false, scores := [], tricks := [] }

/-- The Players dict, modelled as a list in insertion order (dict iteration
order is the turn order). -/
def findPlayer (players : List Player) (pid : String) : Option Player :=
  players.find? (fun p => p.player_id == pid)

/-! ## The spec's rank table, for comparison with the code's parser -/

/-- Rank table written from the spec's words: `A`, `K`, `Q`, `J` map to
14, 13, 12, 11, numeric tokens map to their value. -/
def specRankTable : List (String × Nat) :=
  [ ("2", 2), ("3", 3), ("4", 4), ("5", 5), ("6", 6), ("7", 7), ("8", 8),
    ("9", 9), ("10", 10), ("J", 11), ("Q", 12), ("K", 13), ("A", 14) ]

/-- Rank of a card under the spec's table (0 when the token is not listed). -/
def specRank (card : String) : Nat :=
  ((specRankTable.find? (fun e => e.1 == rankToken card)).map Prod.snd).getD 0

/-! ## C10 -/

/-- C10: `is_higher_rank` is false when the first card is the empty string;
true when the first is non-empty and the second is empty; false when the two
cards have different suits; and, on same-suit deck cards, it is exactly the
strict comparison of the numeric ranks, where the rank mapping agrees with the
spec's table (A, K, Q, J to 14, 13, 12, 11). -/
theorem c10_is_higher_rank_spec :
    (∀ b, is_higher_rank "" b = false) ∧
    (∀ a, a ≠ "" → is_higher_rank a "" = true) ∧
    (∀ a ∈ DECK, ∀ b ∈ DECK, get_suit a ≠ get_suit b → is_higher_rank a b = false) ∧
    (∀ a ∈ DECK, ∀ b ∈ DECK, get_suit a = get_suit b →
      (is_higher_rank a b = true ↔ specRank b < specRank a)) ∧
    (∀ a ∈ DECK, get_rank a = specRank a) := by
  refine ⟨?_, ?_, ?_, ?_, ?_⟩
  · intro b
    simp [is_higher_rank]
  · intro a ha
    simp [is_higher_rank, ha]
  · decide
  · decide
  · decide

/-- Witness for C10 at the spec's own concrete examples. -/
theorem c10_witness :
    is_higher_rank "AH" "" = true ∧ is_higher_rank "" "KH" = false ∧
    is_higher_rank "2D" "3H" = false := by
  refine ⟨?_, ?_, ?_⟩
  · exact c10_is_higher_rank_spec.2.1 "AH" (by decide)
  · exact c10_is_higher_rank_spec.1 "KH"
  · exact c10_is_higher_rank_spec.2.2.1 "2D" (by decide) "3H" (by decide) (by decide)

/-! ## Score calculator, per-trick card scores
(src/server/services.py `ScoreCalculator.get_card_scores`) -/

/-- Number of heart-suited cards among `cards`. -/
def heartsCount (cards : List String) : Nat :=
  cards.countP (fun card => get_suit card == "H")

/-- Queen tokens, as listed in the source. -/
def QUEENS : List String := [ "QC", "QD", "QH", "QS" ]

/-- Number of queens (any suit) among `cards`. -/
def queensCount (cards : List String) : Nat :=
  cards.countP (fun card => decide (card ∈ QUEENS))

/-- Number of King of Spades cards among `cards`. -/
def ksCount (cards : List String) : Nat :=
  cards.countP (fun card => card == "KS")

/-- Penalty of one card in the given round (body of the loop in
`get_card_scores`): 1 point from round 1 on, plus 10 for a heart from round 2,
plus 25 for a queen from round 3, plus 50 for the King of Spades from
round 4. -/
def card_score (card : String) (current_round : Nat) : Nat :=
  (if 1 ≤ current_round then 1 else 0)
  + (if 2 ≤ current_round then (if get_suit card = "H" then 10 else 0) else 0)
  + (if 3 ≤ current_round then (if card ∈ QUEENS then 25 else 0) else 0)
  + (if 4 ≤ current_round then (if card = "KS" then 50 else 0) else 0)

/-- ScoreCalculator.get_card_scores: one score per card of the trick in play
order, with a flat extra 100 appended when the round is at least 5 and the
trick is flagged as the last trick. -/
def get_card_scores (trick : Trick) (current_round : Nat) : List Nat :=
  (trick.cards.map (fun card => card_score card current_round))
    ++ (if 5 ≤ current_round ∧ trick.is_last_trick then [ 100 ] else [])

/-- Sum of the per-card penalties over a card list, in closed form. -/
theorem sum_map_card_score (cards : List String) (r : Nat) :
    (cards.map (fun card => card_score card r)).sum =
      (if 1 ≤ r then cards.length else 0)
      + (if 2 ≤ r then 10 * heartsCount cards else 0)
      + (if 3 ≤ r then 25 * queensCount cards else 0)
      + (if 4 ≤ r then 50 * ksCount cards else 0) := by
  induction cards with
  | nil => simp [heartsCount, queensCount, ksCount]
  | cons c cs ih =>
    simp only [List.map_cons, List.sum_cons, card_score, heartsCount,
      queensCount, ksCount, List.countP_cons, beq_iff_eq,
      decide_eq_true_eq, List.length_cons] at ih ⊢
    rw [ih]
    split_ifs <;> omega

/-! ## C2 -/

/-- C2: in round `r`, a completed trick contributes, per card, 1 point from
round 1, 10 more per heart from round 2, 25 more per queen from round 3,
50 more for the King of Spades from round 4, and a flat 100 from round 5
when it is the last trick; in particular a round-2 trick of exactly
2H and 5H contributes 22, and a 4-card round-5 last trick holding the
Queen of Spades and King of Spades (and two unscored side cards)
contributes 179. -/
theorem c2_card_scores_schedule :
    (∀ (t : Trick) (r : Nat),
      (get_card_scores t r).sum =
        (if 1 ≤ r then t.cards.length else 0)
        + (if 2 ≤ r then 10 * heartsCount t.cards else 0)
        + (if 3 ≤ r then 25 * queensCount t.cards else 0)
        + (if 4 ≤ r then 50 * ksCount t.cards else 0)
        + (if 5 ≤ r ∧ t.is_last_trick then 100 else 0)) ∧
    (get_card_scores { cards := [ "2H", "5H" ] } 2).sum = 22 ∧
    (get_card_scores { cards := [ "QS", "KS", "2C", "3D" ], is_last_trick := true } 5).sum
      = 179 := by
  refine ⟨?_, by decide, by decide⟩
  intro t r
  simp only [get_card_scores, List.sum_append, sum_map_card_score]
  by_cases h : 5 ≤ r ∧ t.is_last_trick <;> simp [h]

/-! ## Bot strategy (src/server/services.py `BotStrategy`)

Python's `min`/`max` with a key return the leftmost element attaining the
extremal key; `minByRank`/`maxByRank` and the keyed pickers below reproduce
that, and return `none` on an empty list where Python raises `ValueError`. -/

/-- Python `min(cards, key=get_rank)`. -/
def minByRank : List String → Option String
  | [] => none
  | c :: rest =>
    match minByRank rest with
    | none => some c
    | some b => if get_rank b < get_rank c then some b else some c

/-- Python `max(cards, key=get_rank)`. -/
def maxByRank : List String → Option String
  | [] => none
  | c :: rest =>
    match maxByRank rest with
    | none => some c
    | some b => if get_rank c < get_rank b then some b else some c

/-- Strict lexicographic comparison of the three-component sort keys. -/
def lex3Lt (a b : Int × Int × Int) : Bool :=
  a.1 < b.1 || (a.1 == b.1 && (a.2.1 < b.2.1 || (a.2.1 == b.2.1 && a.2.2 < b.2.2)))

/-- Python `min(cards, key=key)` for a three-component key. -/
def pickMinBy (key : String → Int × Int × Int) : List String → Option String
  | [] => none
  | c :: rest =>
    match pickMinBy key rest with
    | none => some c
    | some b => if lex3Lt (key b) (key c) then some b else some c

/-- Python `max(cards, key=key)` for a three-component key. -/
def pickMaxBy (key : String → Int × Int × Int) : List String → Option String
  | [] => none
  | c :: rest =>
    match pickMaxBy key rest with
    | none => some c
    | some b => if lex3Lt (key c) (key b) then some b else some c

/-- Count and total rank of the cards of `card`'s suit within `cards`
(the `cos_count` / `cos_rank_sum` locals of the key functions). -/
def suitStats (cards : List String) (card : String) : Nat × Nat :=
  let cards_of_suit := get_cards_of_suit cards (get_suit card)
  (cards_of_suit.length, (cards_of_suit.map get_rank).sum)

/-- Key of `BotStrategy._get_lowest_card`: lower rank first, then fewer cards
of the suit, then lower total rank of the suit. -/
def lowest_card_key (cards : List String) (card : String) : Int × Int × Int :=
  ((get_rank card : Int), ((suitStats cards card).1 : Int),
    ((suitStats cards card).2 : Int))

/-- Key of `BotStrategy._get_highest_card`: higher rank first, then fewer
cards of the suit (negated count), then higher total rank of the suit. -/
def highest_card_key (cards : List String) (card : String) : Int × Int × Int :=
  ((get_rank card : Int), -((suitStats cards card).1 : Int),
    ((suitStats cards card).2 : Int))

/-- BotStrategy._get_lowest_card. -/
def get_lowest_card (cards : List String) : Option String :=
  pickMinBy (lowest_card_key cards) cards

/-- BotStrategy._get_highest_card. -/
def get_highest_card (cards : List String) : Option String :=
  pickMaxBy (highest_card_key cards) cards

/-- BotStrategy._get_card_of_leading_suit: the lowest follow-suit card when
the trick is empty or that card beats the trick's current lowest card;
otherwise the highest follow-suit card ranked strictly below the trick's
current lowest — `none` models the `ValueError` Python's `max` raises when no
such card exists. -/
def get_card_of_leading_suit (cards trick_cards : List String) : Option String :=
  match minByRank cards with
  | none => none
  | some lowest_card =>
    if trick_cards = [] then some lowest_card
    else
      match minByRank trick_cards with
      | none => none
      | some lowest_trick_card =>
        if get_rank lowest_trick_card < get_rank lowest_card then some lowest_card
        else
          maxByRank (cards.filter
            (fun card => decide (get_rank card < get_rank lowest_trick_card)))

/-- BotStrategy.choose_card: lead with the safest card, follow suit via
`get_card_of_leading_suit`, or dump the most dangerous card when void. -/
def choose_card (player : Player) (current_trick : Trick) : Option String :=
  if current_trick.leading_suit = "" then get_lowest_card player.hand
  else
    let cards_of_leading_suit :=
      get_cards_of_suit player.hand current_trick.leading_suit
    if cards_of_leading_suit ≠ [] then
      get_card_of_leading_suit cards_of_leading_suit current_trick.cards
    else get_highest_card player.hand

/-- On a non-empty list, `minByRank` returns a member of minimal rank. -/
theorem minByRank_spec (l : List String) (hl : l ≠ []) :
    ∃ m, minByRank l = some m ∧ m ∈ l ∧ ∀ d ∈ l, get_rank m ≤ get_rank d := by
  induction l with
  | nil => exact absurd rfl hl
  | cons c rest ih =>
    rcases hrest : rest with _ | ⟨c2, rest2⟩
    · exact ⟨c, rfl, List.mem_cons_self c [], by simp⟩
    · rw [← hrest]
      have hne : rest ≠ [] := by simp [hrest]
      rcases ih hne with ⟨b, hb, hbmem, hbmin⟩
      by_cases hlt : get_rank b < get_rank c
      · refine ⟨b, ?_, List.mem_cons_of_mem c hbmem, ?_⟩
        · simp [minByRank, hb, hlt]
        · intro d hd
          rcases List.mem_cons.mp hd with hd | hd
          · exact hd ▸ Nat.le_of_lt hlt
          · exact hbmin d hd
      · refine ⟨c, ?_, List.mem_cons_self c rest, ?_⟩
        · simp [minByRank, hb, hlt]
        · intro d hd
          rcases List.mem_cons.mp hd with hd | hd
          · exact hd ▸ Nat.le_refl _
          · exact Nat.le_trans (Nat.le_of_not_lt hlt) (hbmin d hd)

/-- On a non-empty list, `maxByRank` returns a member of maximal rank. -/
theorem maxByRank_spec (l : List String) (hl : l ≠ []) :
    ∃ m, maxByRank l = some m ∧ m ∈ l ∧ ∀ d ∈ l, get_rank d ≤ get_rank m := by
  induction l with
  | nil => exact absurd rfl hl
  | cons c rest ih =>
    rcases hrest : rest with _ | ⟨c2, rest2⟩
    · exact ⟨c, rfl, List.mem_cons_self c [], by simp⟩
    · rw [← hrest]
      have hne : rest ≠ [] := by simp [hrest]
      rcases ih hne with ⟨b, hb, hbmem, hbmax⟩
      by_cases hlt : get_rank c < get_rank b
      · refine ⟨b, ?_, List.mem_cons_of_mem c hbmem, ?_⟩
        · simp [maxByRank, hb, hlt]
        · intro d hd
          rcases List.mem_cons.mp hd with hd | hd
          · exact hd ▸ Nat.le_of_lt hlt
          · exact hbmax d hd
      · refine ⟨c, ?_, List.mem_cons_self c rest, ?_⟩
        · simp [maxByRank, hb, hlt]
        · intro d hd
          rcases List.mem_cons.mp hd with hd | hd
          · exact hd ▸ Nat.le_refl _
          · exact Nat.le_trans (hbmax d hd) (Nat.le_of_not_lt hlt)

/-! ## C3 -/

/-- C3: when the bot can follow the established leading suit and the trick
already holds cards, `choose_card` returns a lowest-rank follow-suit card if
its rank beats the trick's current lowest rank, and otherwise the
highest-rank follow-suit card ranked strictly below the trick's current
lowest (given one exists — C4 covers the failure when none does).  Here `lo`
is a lowest-rank follow-suit card and `tlo` a lowest-rank card of the
trick. -/
theorem c3_bot_follow_suit (player : Player) (t : Trick) (lo tlo : String)
    (hlead : t.leading_suit ≠ "")
    (hlo : lo ∈ get_cards_of_suit player.hand t.leading_suit)
    (hlomin : ∀ d ∈ get_cards_of_suit player.hand t.leading_suit,
      get_rank lo ≤ get_rank d)
    (htlo : tlo ∈ t.cards)
    (htlomin : ∀ d ∈ t.cards, get_rank tlo ≤ get_rank d) :
    (get_rank tlo < get_rank lo →
      ∃ c, choose_card player t = some c ∧
        c ∈ get_cards_of_suit player.hand t.leading_suit ∧
        get_rank c = get_rank lo) ∧
    (get_rank lo ≤ get_rank tlo →
      (∃ e ∈ get_cards_of_suit player.hand t.leading_suit,
        get_rank e < get_rank tlo) →
      ∃ c, choose_card player t = some c ∧
        c ∈ get_cards_of_suit player.hand t.leading_suit ∧
        get_rank c < get_rank tlo ∧
        ∀ e ∈ get_cards_of_suit player.hand t.leading_suit,
          get_rank e < get_rank tlo → get_rank e ≤ get_rank c) := by
  have hcos : get_cards_of_suit player.hand t.leading_suit ≠ [] :=
    fun h => by simp [h] at hlo
  have htrick : t.cards ≠ [] := fun h => by simp [h] at htlo
  rcases minByRank_spec _ hcos with ⟨m, hm, hmmem, hmmin⟩
  rcases minByRank_spec _ htrick with ⟨tm, htm, htmmem, htmmin⟩
  have hmlo : get_rank m = get_rank lo :=
    Nat.le_antisymm (hmmin lo hlo) (hlomin m hmmem)
  have htmtlo : get_rank tm = get_rank tlo :=
    Nat.le_antisymm (htmmin tlo htlo) (htlomin tm htmmem)
  have hchoose : choose_card player t =
      get_card_of_leading_suit (get_cards_of_suit player.hand t.leading_suit)
        t.cards := by
    simp [choose_card, hlead, hcos]
  constructor
  · intro hgt
    refine ⟨m, ?_, hmmem, hmlo⟩
    rw [hchoose]
    simp only [get_card_of_leading_suit, hm, htm, htrick, if_neg htrick]
    rw [if_pos (show get_rank tm < get_rank m by omega)]
    simp
  · intro hle hex
    rcases hex with ⟨e, hemem, helt⟩
    have hfil : e ∈ (get_cards_of_suit player.hand t.leading_suit).filter
        (fun card => decide (get_rank card < get_rank tm)) := by
      rw [List.mem_filter]
      exact ⟨hemem, by simp [htmtlo, helt]⟩
    have hfilne : (get_cards_of_suit player.hand t.leading_suit).filter
        (fun card => decide (get_rank card < get_rank tm)) ≠ [] :=
      fun h => by simp [h] at hfil
    rcases maxByRank_spec _ hfilne with ⟨w, hw, hwmem, hwmax⟩
    rcases List.mem_filter.mp hwmem with ⟨hwcos, hwlt⟩
    refine ⟨w, ?_, hwcos, ?_, ?_⟩
    · rw [hchoose]
      simp only [get_card_of_leading_suit, hm, htm, if_neg htrick]
      rw [if_neg (show ¬ get_rank tm < get_rank m by omega)]
      exact hw
    · have := of_decide_eq_true hwlt
      omega
    · intro f hfcos hflt
      exact hwmax f (List.mem_filter.mpr ⟨hfcos, by simp [htmtlo, hflt]⟩)

/-- Witness for C3: hand 2H/9H following hearts under a trick led by 5H must
duck with the 2H. -/
theorem c3_witness :
    ∃ c, choose_card { hand := [ "2H", "9H" ] }
        { leading_suit := "H", cards := [ "5H" ] } = some c ∧
      c ∈ get_cards_of_suit [ "2H", "9H" ] "H" ∧
      get_rank c < get_rank "5H" ∧
      ∀ e ∈ get_cards_of_suit [ "2H", "9H" ] "H",
        get_rank e < get_rank "5H" → get_rank e ≤ get_rank c := by
  exact (c3_bot_follow_suit { hand := [ "2H", "9H" ] }
      { leading_suit := "H", cards := [ "5H" ] } "2H" "5H"
      (by decide) (by decide) (by decide) (by decide) (by decide)).2
    (by decide) ⟨ "2H", by decide, by decide⟩

/-! ## C4 -/

/-- C4: `choose_card` is not total: with a non-empty hand holding the leading
suit (hand 2H, hearts led, trick 5H then an off-suit 2D) the lowest
follow-suit card ties the trick's lowest rank and no follow-suit card lies
strictly below it, so `_get_card_of_leading_suit` takes `max` of an empty
list — modelled as `none`, an uncaught `ValueError` in Python. -/
theorem c4_choose_card_crash :
    ({ hand := [ "2H" ] } : Player).hand ≠ [] ∧
    ({ hand := [ "2H" ] } : Player).has_suit "H" = true ∧
    get_rank "2H" = get_rank "2D" ∧
    minByRank [ "5H", "2D" ] = some "2D" ∧
    choose_card { hand := [ "2H" ] }
      { leading_suit := "H", cards := [ "5H", "2D" ] } = none := by
  decide

/-! ## Deck manager (src/server/main.py `DeckManager`, identical algorithm in
src/server/services.py) -/

/-- Sort key of a dealt card (`_get_card_sort_key`): display index of its
suit in `SUIT_ORDER`, then its rank. -/
def card_sort_key (card : String) : Nat × Nat :=
  (SUIT_ORDER.indexOf (get_suit card), get_rank card)

/-- Ascending order on cards under `card_sort_key`. -/
def keyLe (a b : String) : Prop :=
  (card_sort_key a).1 < (card_sort_key b).1 ∨
    ((card_sort_key a).1 = (card_sort_key b).1 ∧
      (card_sort_key a).2 ≤ (card_sort_key b).2)

instance : DecidableRel keyLe := fun a b => by
  unfold keyLe
  exact inferInstance

instance : IsTotal String keyLe :=
  ⟨fun a b => by unfold keyLe; omega⟩

instance : IsTrans String keyLe :=
  ⟨fun a b c hab hbc => by unfold keyLe at *; omega⟩

/-- Python's stable `hand.sort(key=self._get_card_sort_key)`, modelled as an
insertion sort by `keyLe`; in a dealt hand all keys are distinct, so any
correct sort produces the same list. -/
def sortHand (hand : List String) : List String := List.insertionSort keyLe hand

/-- Dealing loop of `deal_hands`: repeatedly slice `hand_size` cards off the
front of the deck and sort each slice. -/
def deal_go (hand_size : Nat) : Nat → List String → List (List String)
  | 0, _ => []
  | n + 1, deck =>
    sortHand (deck.take hand_size) :: deal_go hand_size n (deck.drop hand_size)

/-- DeckManager.deal_hands: hand size is `len(deck) // num_players`, computed
once; any remainder cards stay undealt. -/
def deal_hands (deck : List String) (num_players : Nat) : List (List String) :=
  deal_go (deck.length / num_players) num_players deck

/-! ## Score calculator, per-round aggregation
(src/server/main.py `ScoreCalculator`) -/

/-- ScoreCalculator.calculate_card_count_penalty: 1 point per card taken. -/
def calculate_card_count_penalty (tricks : List Trick) : Nat :=
  (tricks.map (fun t => t.cards.length)).sum

/-- ScoreCalculator.calculate_hearts_penalty: 10 points per heart taken. -/
def calculate_hearts_penalty (tricks : List Trick) : Nat :=
  (tricks.map (fun t => 10 * heartsCount t.cards)).sum

/-- ScoreCalculator.calculate_queens_penalty: 25 points per queen taken. -/
def calculate_queens_penalty (tricks : List Trick) : Nat :=
  (tricks.map (fun t => 25 * queensCount t.cards)).sum

/-- ScoreCalculator.calculate_ks_penalty: 50 points per trick holding the
King of Spades. -/
def calculate_ks_penalty (tricks : List Trick) : Nat :=
  (tricks.map (fun t => if "KS" ∈ t.cards then 50 else 0)).sum

/-- ScoreCalculator.calculate_last_trick_penalty: 100 points per trick
flagged as last. -/
def calculate_last_trick_penalty (tricks : List Trick) : Nat :=
  (tricks.map (fun t => if t.is_last_trick then 100 else 0)).sum

/-- ScoreCalculator.calculate_round_score: penalty categories gated by the
round number, summed over the player's tricks of the round. -/
def calculate_round_score (player : Player) (round_number : Nat) : Nat :=
  calculate_card_count_penalty player.tricks
  + (if 2 ≤ round_number then calculate_hearts_penalty player.tricks else 0)
  + (if 3 ≤ round_number then calculate_queens_penalty player.tricks else 0)
  + (if 4 ≤ round_number then calculate_ks_penalty player.tricks else 0)
  + (if 5 ≤ round_number then calculate_last_trick_penalty player.tricks else 0)

/-- Players.calculate_scores: append each player's round score to their
score history. -/
def calculate_scores (players : List Player) (current_round : Nat) : List Player :=
  players.map (fun p =>
    { p with scores := p.scores ++ [ calculate_round_score p current_round ] })

/-- Players.set_winners: flag every player whose total equals the lowest
total. -/
def set_winners (players : List Player) : List Player :=
  match (players.map (fun p => p.scores.sum)).min? with
  | none => players
  | some lowest =>
    players.map (fun p =>
      if p.scores.sum = lowest then { p with is_winner := true } else p)

/-- Players.clear_tricks. -/
def clear_tricks (players : List Player) : List Player :=
  players.map (fun p => { p with tricks := [] })

/-- Players.reset: delete the bot entries, then reset every remaining
player. -/
def players_reset (players : List Player) : List Player :=
  (players.filter (fun p => ! (p.type == PlayerType.BOT))).map Player.reset

/-! ## Game state and flow (src/server/main.py `GameState`, `GameFlow`,
`GameController`)

The `Players` dict is folded into the state as a list in insertion order;
`broadcast_count` counts invocations of the excluded broadcast collaborator,
so that "no broadcast" is visible in the state.  `created_at` (wall clock,
expiration only) is not modelled. -/

structure GState where
  current_round : Nat := 0
  current_trick : Trick := {}
  discard_pile : List String := []
  game_phase : GamePhase := GamePhase.NOT_STARTED
  round_start_index : Nat := 0
  turn_order : List String := []
  turn_order_index : Nat := 0
  turn_phase : TurnPhase := TurnPhase.NOT_STARTED
  trick_start_index : Nat := 0
  players : List Player := []
  broadcast_count : Nat := 0
deriving DecidableEq, Repr

/-- The initial game state (`GameState.__init__`). -/
def GState.initial : GState := {}

/-- GameFlow._is_valid_play: the card must be in the hand, and when a leading
suit is established and the player holds that suit, the card must follow
it. -/
def is_valid_play (gs : GState) (player : Player) (card : String) : Bool :=
  if card ∉ player.hand then false
  else if gs.current_trick.leading_suit ≠ "" ∧
      player.has_suit gs.current_trick.leading_suit = true ∧
      get_suit card ≠ gs.current_trick.leading_suit then false
  else true

/-- The `play_card` branch of `GameController.handle_action` up to the state
broadcast: resolve the acting player, drop empty-card requests, require the
game phase to be in progress (main.py `GamePhase.STARTED`), validate via
`_is_valid_play`, and on success remove the card from the hand, append it to
the discard pile, feed it to the trick, mark the turn complete and broadcast.
Turn advancement and bot chaining happen after this step and are modelled
separately. -/
def play_card_action (gs : GState) (pid card : String) : GState :=
  match findPlayer gs.players pid with
  | none => gs
  | some player =>
    if card = "" then gs
    else if gs.game_phase ≠ GamePhase.IN_PROGRESS then gs
    else if ¬ (is_valid_play gs player card = true) then gs
    else
      { gs with
        players := gs.players.map (fun q =>
          if q.player_id == pid then { q with hand := q.hand.erase card } else q),
        discard_pile := gs.discard_pile ++ [card],
        current_trick := gs.current_trick.update card pid,
        turn_phase := TurnPhase.TURN_COMPLETE,
        broadcast_count := gs.broadcast_count + 1 }

/-- Hand assignment loop of `_setup_new_round`: the i-th player receives the
i-th dealt hand. -/
def assign_hands (players : List Player) (hands : List (List String)) : List Player :=
  List.zipWith (fun p h => { p with hand := h }) players hands

/-- GameFlow._setup_new_round with the post-shuffle deck passed explicitly
(the shuffle itself is the excluded source of randomness). -/
def setup_new_round (deck : List String) (st : GState) : GState :=
  let hands := deal_hands deck st.players.length
  { st with
    turn_order := st.players.map (fun p => p.player_id),
    players := assign_hands st.players hands }

/-- GameFlow._complete_game. -/
def complete_game (st : GState) : GState :=
  { st with game_phase := GamePhase.GAME_COMPLETE, players := set_winners st.players }

/-- GameFlow._advance_round: bump the round counter, append round scores,
then either complete the game at the 5-round threshold or rotate the
round-start seat, deal a new round and clear trick histories. -/
def advance_round (deck : List String) (st : GState) : GState :=
  let r := st.current_round + 1
  let st1 := { st with current_round := r, players := calculate_scores st.players r }
  if 5 ≤ r then complete_game st1
  else
    let rsi := rotate_index st1.round_start_index st1.turn_order.length
    let st2 := { st1 with
      round_start_index := rsi, turn_order_index := rsi, trick_start_index := rsi }
    let st3 := setup_new_round deck st2
    { st3 with players := clear_tricks st3.players }

/-- Players.fill_openings_with_bots, with the generated 4-character ids
passed explicitly (id generation is the excluded source of randomness). -/
def fill_bots (fresh_ids : List String) (players : List Player) : List Player :=
  players ++ (fresh_ids.take (4 - players.length)).map (fun i =>
    { name := "Bot #" ++ i, player_id := i, type := PlayerType.BOT })

/-- GameFlow.start_game: fill empty seats with bots, mark the game in
progress and deal the first round. -/
def start_game (deck : List String) (fresh_ids : List String) (st : GState) : GState :=
  let st1 := { st with
    players := fill_bots fresh_ids st.players,
    game_phase := GamePhase.IN_PROGRESS }
  setup_new_round deck st1

/-- Iterated round ends, round `k` using `decks k` as its shuffle. -/
def run_rounds (decks : Nat → List String) : Nat → GState → GState
  | 0, st => st
  | k + 1, st => run_rounds decks k (advance_round (decks k) st)

/-- The `end_game` action / services `reset_game`: reinitialise the game
state, reset the players (dropping bots), and broadcast. -/
def reset_game (st : GState) : GState :=
  { GState.initial with
    players := players_reset st.players,
    broadcast_count := st.broadcast_count + 1 }

/-- A card has an empty suit exactly when it is the empty sentinel string. -/
theorem get_suit_eq_empty_iff (card : String) : get_suit card = "" ↔ card = "" := by
  constructor
  · intro h
    rw [String.ext_iff] at h ⊢
    simp only [get_suit] at h
    rcases hd : card.data with _ | ⟨c, cs⟩
    · simp [hd]
    · exfalso
      rw [hd] at h
      have hlen : ((c :: cs).drop ((c :: cs).length - 1)).length = 1 := by
        simp [List.length_drop]
      simp only [h] at hlen
      simp at hlen
  · intro h
    subst h
    rfl

/-- Unfolding of `is_higher_rank` against a non-empty current winning card:
the new card wins exactly when it is a real card of the same suit with a
strictly higher numeric rank. -/
theorem is_higher_rank_iff (card_a card_b : String) (hb : card_b ≠ "") :
    is_higher_rank card_a card_b = true ↔
      card_a ≠ "" ∧ get_suit card_a = get_suit card_b ∧
        get_rank card_b < get_rank card_a := by
  by_cases ha : card_a = ""
  · subst ha
    simp [is_higher_rank]
  · by_cases hs : get_suit card_a = get_suit card_b
    · simp [is_higher_rank, ha, hb, hs]
    · simp [is_higher_rank, ha, hb, hs]

/-! ## Sequences of trick updates -/

/-- Replay a list of (card, player) updates on a trick, left to right. -/
def runUpdates (t : Trick) (plays : List (String × String)) : Trick :=
  plays.foldl (fun t q => t.update q.1 q.2) t

/-- One-step preservation of the invariant that the winning card is a real
card whose suit is the (non-empty) leading suit. -/
theorem update_preserves_winner_suit (t : Trick) (c p : String)
    (hls : t.leading_suit ≠ "") (hw : t.winning_card ≠ "")
    (hsuit : get_suit t.winning_card = t.leading_suit) :
    (t.update c p).leading_suit = t.leading_suit ∧
      (t.update c p).winning_card ≠ "" ∧
      get_suit (t.update c p).winning_card = t.leading_suit := by
  unfold Trick.update
  simp only [hls, if_neg (fun h => hls h)]
  by_cases hhi : is_higher_rank c t.winning_card = true
  · rcases (is_higher_rank_iff c t.winning_card hw).mp hhi with ⟨hc, hcs, _⟩
    simp [hhi, hc, hcs, hsuit]
  · simp [Bool.not_eq_true] at hhi
    simp [hhi, hw, hsuit]

/-- The invariant holds along any update sequence of real cards. -/
theorem runUpdates_invariant (plays : List (String × String)) (t : Trick)
    (hls : t.leading_suit ≠ "") (hw : t.winning_card ≠ "")
    (hsuit : get_suit t.winning_card = t.leading_suit)
    (hcards : ∀ q ∈ plays, q.1 ≠ "") :
    (runUpdates t plays).leading_suit = t.leading_suit ∧
      (runUpdates t plays).winning_card ≠ "" ∧
      get_suit (runUpdates t plays).winning_card = t.leading_suit := by
  induction plays generalizing t with
  | nil => exact ⟨rfl, hw, hsuit⟩
  | cons q qs ih =>
    have hstep := update_preserves_winner_suit t q.1 q.2 hls hw hsuit
    have hrec := ih (t.update q.1 q.2)
      (hstep.1.symm ▸ hls) hstep.2.1 (hstep.1.symm ▸ hstep.2.2)
      (fun r hr => hcards r (List.mem_cons_of_mem q hr))
    refine ⟨?_, hrec.2.1, ?_⟩
    · rw [show runUpdates t (q :: qs) = runUpdates (t.update q.1 q.2) qs from rfl,
        hrec.1, hstep.1]
    · rw [show runUpdates t (q :: qs) = runUpdates (t.update q.1 q.2) qs from rfl,
        hrec.2.2, hstep.1]

/-! ## C6 -/

/-- C6: over any update sequence the leading suit is set by the first card and
never changes; the winning card/player take over on an update exactly when no
winner is set yet or the new card shares the current winning card's suit with
a strictly higher rank; the first card of a fresh trick always becomes the
initial winner; and after the first card the winning card's suit always equals
the leading suit, so an off-suit card can never become the winner. -/
theorem c6_trick_update_invariants :
    (∀ (t : Trick) (c p : String), t.leading_suit ≠ "" →
      (t.update c p).leading_suit = t.leading_suit) ∧
    (∀ (t : Trick) (c p : String), t.leading_suit = "" →
      (t.update c p).leading_suit = get_suit c) ∧
    (∀ (t : Trick) (c p : String), c ≠ "" → t.winning_card = "" →
      (t.update c p).winning_card = c ∧ (t.update c p).winner_id = p) ∧
    (∀ (t : Trick) (c p : String), t.winning_card ≠ "" →
      ((get_suit c = get_suit t.winning_card ∧
          get_rank t.winning_card < get_rank c) →
        (t.update c p).winning_card = c ∧ (t.update c p).winner_id = p) ∧
      (¬ (get_suit c = get_suit t.winning_card ∧
          get_rank t.winning_card < get_rank c) →
        (t.update c p).winning_card = t.winning_card ∧
          (t.update c p).winner_id = t.winner_id)) ∧
    (∀ (first : String × String) (plays : List (String × String)),
      first.1 ≠ "" → (∀ q ∈ plays, q.1 ≠ "") →
      (runUpdates {} (first :: plays)).leading_suit = get_suit first.1 ∧
        (runUpdates {} (first :: plays)).winning_card ≠ "" ∧
        get_suit (runUpdates {} (first :: plays)).winning_card
          = get_suit first.1 ∧
        (plays = [] → (runUpdates {} (first :: plays)).winning_card = first.1 ∧
          (runUpdates {} (first :: plays)).winner_id = first.2)) := by
  have hfresh : ∀ (t : Trick) (c p : String), c ≠ "" → t.winning_card = "" →
      (t.update c p).winning_card = c ∧ (t.update c p).winner_id = p := by
    intro t c p hc hw
    unfold Trick.update
    have hhi : is_higher_rank c t.winning_card = true := by
      simp [is_higher_rank, hc, hw]
    by_cases hls : t.leading_suit = "" <;> simp [hls, hw, hhi, is_higher_rank, hc]
  refine ⟨?_, ?_, hfresh, ?_, ?_⟩
  · intro t c p hls
    unfold Trick.update
    simp only [hls, if_neg (fun h => hls h)]
    by_cases hhi : is_higher_rank c t.winning_card <;> simp [hhi]
  · intro t c p hls
    unfold Trick.update
    simp only [hls, if_pos rfl]
    by_cases hhi : is_higher_rank c t.winning_card <;> simp [hhi]
  · intro t c p hw
    constructor
    · intro ⟨hcs, hrank⟩
      have hc : c ≠ "" := by
        intro hc
        subst hc
        exact hw ((get_suit_eq_empty_iff _).mp (hcs.symm.trans rfl))
      have hhi : is_higher_rank c t.winning_card = true :=
        (is_higher_rank_iff c t.winning_card hw).mpr ⟨hc, hcs, hrank⟩
      unfold Trick.update
      by_cases hls : t.leading_suit = "" <;> simp [hls, hhi]
    · intro hno
      have hhi : is_higher_rank c t.winning_card = false := by
        rw [Bool.eq_false_iff]
        intro hhi
        rcases (is_higher_rank_iff c t.winning_card hw).mp hhi with ⟨_, hcs, hrank⟩
        exact hno ⟨hcs, hrank⟩
      unfold Trick.update
      by_cases hls : t.leading_suit = "" <;> simp [hls, hhi]
  · intro first plays hc hplays
    have hsuitc : get_suit first.1 ≠ "" :=
      fun h => hc ((get_suit_eq_empty_iff _).mp h)
    have hstep1 : (Trick.update {} first.1 first.2).leading_suit = get_suit first.1 ∧
        (Trick.update {} first.1 first.2).winning_card = first.1 ∧
        (Trick.update {} first.1 first.2).winner_id = first.2 := by
      have hhi : is_higher_rank first.1 "" = true := by
        simp [is_higher_rank, hc]
      unfold Trick.update
      simp [hhi]
    have hrun : runUpdates {} (first :: plays)
        = runUpdates (Trick.update {} first.1 first.2) plays := rfl
    have hinv := runUpdates_invariant plays (Trick.update {} first.1 first.2)
      (hstep1.1.symm ▸ hsuitc) (hstep1.2.1.symm ▸ hc)
      (by rw [hstep1.2.1, hstep1.1]) hplays
    refine ⟨?_, ?_, ?_, ?_⟩
    · rw [hrun, hinv.1, hstep1.1]
    · rw [hrun]
      exact hinv.2.1
    · rw [hrun, hinv.2.2, hstep1.1]
    · intro hnil
      subst hnil
      exact ⟨hstep1.2.1, hstep1.2.2⟩

/-- Witness for C6 at a concrete trick and play sequence. -/
theorem c6_witness :
    (Trick.update { leading_suit := "H", winning_card := "5H" } "2D" "p2").leading_suit
        = "H" ∧
      (runUpdates {} [ ("5H", "p1"), ("AH", "p2"), ("5D", "p3") ]).winning_card ≠ "" := by
  constructor
  · exact c6_trick_update_invariants.1
      { leading_suit := "H", winning_card := "5H" } "2D" "p2" (by decide)
  · exact (c6_trick_update_invariants.2.2.2.2 ("5H", "p1")
      [ ("AH", "p2"), ("5D", "p3") ] (by decide) (by decide)).2.1

/-! ## C9 -/

/-- C9: after `reset_game` the phase is `NOT_STARTED`, every remaining
player's hand, tricks and scores are empty with the winner flag cleared, no
bot remains, and the surviving (human) players keep their id and name, in
order. -/
theorem c9_reset_frame (st : GState) :
    (reset_game st).game_phase = GamePhase.NOT_STARTED ∧
    (∀ p ∈ (reset_game st).players,
      p.hand = [] ∧ p.tricks = [] ∧ p.scores = [] ∧ p.is_winner = false ∧
        p.type ≠ PlayerType.BOT) ∧
    (reset_game st).players.map (fun p => (p.player_id, p.name)) =
      (st.players.filter (fun p => ! (p.type == PlayerType.BOT))).map
        (fun p => (p.player_id, p.name)) := by
  refine ⟨rfl, ?_, ?_⟩
  · intro p hp
    simp only [reset_game, players_reset, List.mem_map] at hp
    rcases hp with ⟨q, hq, hqp⟩
    rcases List.mem_filter.mp hq with ⟨_, hqt⟩
    subst hqp
    refine ⟨rfl, rfl, rfl, rfl, ?_⟩
    simpa [Player.reset] using hqt
  · simp only [reset_game, players_reset, List.map_map]
    rfl

/-- A concrete mid-game state with one human and one bot, for the C9
witness. -/
def c9SampleState : GState :=
  { players :=
      [ { name := "Alice", player_id := "AAAA", hand := [ "2H" ],
          scores := [ 7 ], is_winner := true },
        { name := "Bot #XXXX", player_id := "XXXX",
          type := PlayerType.BOT } ],
    game_phase := GamePhase.GAME_COMPLETE }

/-- Witness for C9 on a mid-game state with one human and one bot. -/
theorem c9_witness :
    (reset_game c9SampleState).game_phase = GamePhase.NOT_STARTED ∧
    (reset_game c9SampleState).players.map (fun p => (p.player_id, p.name))
      = [ ("AAAA", "Alice") ] := by
  constructor
  · exact (c9_reset_frame c9SampleState).1
  · rw [(c9_reset_frame c9SampleState).2.2]
    decide

/-! ## Play-card legality as the claims state it -/

/-- A player holds a suit exactly when some card of their hand has it. -/
theorem has_suit_iff (p : Player) (s : String) :
    p.has_suit s = true ↔ ∃ c ∈ p.hand, get_suit c = s := by
  simp [Player.has_suit, List.any_eq_true]

/-- Legality of a play as the claim words it: the card is in the acting
player's hand, and if a leading suit is established and the player holds any
card of that suit, the played card follows it. -/
def claimPlayLegal (gs : GState) (p : Player) (card : String) : Prop :=
  card ∈ p.hand ∧
    (gs.current_trick.leading_suit ≠ "" ∧
        (∃ c ∈ p.hand, get_suit c = gs.current_trick.leading_suit) →
      get_suit card = gs.current_trick.leading_suit)

/-- The claim's full acceptance condition for `playCard`: phase in progress
and a legal card for the acting player. -/
def claimPlayConditions (gs : GState) (pid card : String) : Prop :=
  gs.game_phase = GamePhase.IN_PROGRESS ∧
    match findPlayer gs.players pid with
    | none => False
    | some p => claimPlayLegal gs p card

instance (gs : GState) (p : Player) (card : String) :
    Decidable (claimPlayLegal gs p card) := by
  unfold claimPlayLegal
  exact inferInstance

instance (gs : GState) (pid card : String) :
    Decidable (claimPlayConditions gs pid card) := by
  unfold claimPlayConditions
  cases h : findPlayer gs.players pid
  · simp only [h]
    exact inferInstance
  · simp only [h]
    exact inferInstance

/-- `_is_valid_play` decides exactly the claim's legality condition. -/
theorem is_valid_play_iff (gs : GState) (p : Player) (card : String) :
    is_valid_play gs p card = true ↔ claimPlayLegal gs p card := by
  unfold is_valid_play claimPlayLegal
  split_ifs with h1 h2
  · simp only [Bool.false_eq_true, false_iff]
    intro hc
    exact h2.2.2 (hc.2 ⟨h2.1, (has_suit_iff p _).mp h2.2.1⟩)
  · simp only [true_iff]
    refine ⟨h1, fun hprem => ?_⟩
    by_contra hsuit
    exact h2 ⟨hprem.1, (has_suit_iff p _).mpr hprem.2, hsuit⟩
  · simp only [Bool.false_eq_true, false_iff]
    intro hc
    exact h1 hc.1

/-! ## C1 -/

/-- C1: `playCard` leaves the state (players, discard pile, trick, phase
markers, broadcast count) untouched unless the phase is in progress and the
card is a legal play for the acting player; when the conditions hold for a
real card the play goes through with exactly the four documented mutations
plus one broadcast; and a player void in the leading suit passes the
condition with any card of their hand. -/
theorem c1_play_card_frame (gs : GState) (pid card : String) :
    (¬ claimPlayConditions gs pid card → play_card_action gs pid card = gs) ∧
    (claimPlayConditions gs pid card → card ≠ "" →
      play_card_action gs pid card =
        { gs with
          players := gs.players.map (fun q =>
            if q.player_id == pid then { q with hand := q.hand.erase card }
            else q),
          discard_pile := gs.discard_pile ++ [card],
          current_trick := gs.current_trick.update card pid,
          turn_phase := TurnPhase.TURN_COMPLETE,
          broadcast_count := gs.broadcast_count + 1 }) ∧
    (∀ p, findPlayer gs.players pid = some p →
      gs.game_phase = GamePhase.IN_PROGRESS → card ∈ p.hand →
      p.has_suit gs.current_trick.leading_suit = false →
      claimPlayConditions gs pid card) := by
  refine ⟨?_, ?_, ?_⟩
  · intro hno
    unfold play_card_action
    cases hfind : findPlayer gs.players pid with
    | none => rfl
    | some p =>
      by_cases hcard : card = ""
      · simp [hcard]
      · by_cases hph : gs.game_phase = GamePhase.IN_PROGRESS
        · by_cases hval : is_valid_play gs p card = true
          · exfalso
            apply hno
            unfold claimPlayConditions
            rw [hfind]
            exact ⟨hph, (is_valid_play_iff gs p card).mp hval⟩
          · simp [hcard, hph, hval]
        · simp [hcard, hph]
  · intro hyes hcard
    unfold claimPlayConditions at hyes
    cases hfind : findPlayer gs.players pid with
    | none =>
      rw [hfind] at hyes
      exact absurd hyes.2 id
    | some p =>
      rw [hfind] at hyes
      have hval : is_valid_play gs p card = true :=
        (is_valid_play_iff gs p card).mpr hyes.2
      unfold play_card_action
      rw [hfind]
      simp [hcard, hyes.1, hval]
  · intro p hfind hph hmem hvoid
    unfold claimPlayConditions
    rw [hfind]
    refine ⟨hph, hmem, ?_⟩
    intro ⟨_, hex⟩
    exact absurd ((has_suit_iff p _).mpr hex) (by simp [hvoid])

/-- A lobby state where Alice holds the 2H but the game has not started,
for the C1 witness. -/
def c1LobbyState : GState :=
  { players := [ { name := "Alice", player_id := "AAAA", hand := [ "2H" ] } ] }

/-- The same state with the game in progress, for the C1 witness. -/
def c1LiveState : GState :=
  { players := [ { name := "Alice", player_id := "AAAA", hand := [ "2H" ] } ],
    game_phase := GamePhase.IN_PROGRESS }

/-- Witness for C1: a play in a not-yet-started game is silently dropped,
and a legal in-progress play mutates the state as documented. -/
theorem c1_witness :
    play_card_action c1LobbyState "AAAA" "2H" = c1LobbyState ∧
    play_card_action c1LiveState "AAAA" "2H"
      = { players := [ { name := "Alice", player_id := "AAAA", hand := [] } ],
          game_phase := GamePhase.IN_PROGRESS,
          discard_pile := [ "2H" ],
          current_trick := { leading_suit := "H", winner_id := "AAAA",
                             winning_card := "2H" },
          turn_phase := TurnPhase.TURN_COMPLETE,
          broadcast_count := 1 } := by
  constructor
  · exact (c1_play_card_frame c1LobbyState "AAAA" "2H").1 (by decide)
  · rw [(c1_play_card_frame c1LiveState "AAAA" "2H").2.1 (by decide) (by decide)]
    decide

/-! ## Per-trick penalty and round-score aggregation -/

/-- Penalty one completed trick contributes to its taker's round score in
round `r`, as the claim states it: card count, plus the gated hearts, queen,
King-of-Spades and last-trick penalties. -/
def trickPenalty (t : Trick) (r : Nat) : Nat :=
  t.cards.length
  + (if 2 ≤ r then 10 * heartsCount t.cards else 0)
  + (if 3 ≤ r then 25 * queensCount t.cards else 0)
  + (if 4 ≤ r then (if "KS" ∈ t.cards then 50 else 0) else 0)
  + (if 5 ≤ r then (if t.is_last_trick then 100 else 0) else 0)

/-- The category-wise round score equals the sum of per-trick penalties. -/
theorem penalties_split (l : List Trick) (r : Nat) :
    calculate_card_count_penalty l
    + (if 2 ≤ r then calculate_hearts_penalty l else 0)
    + (if 3 ≤ r then calculate_queens_penalty l else 0)
    + (if 4 ≤ r then calculate_ks_penalty l else 0)
    + (if 5 ≤ r then calculate_last_trick_penalty l else 0)
    = (l.map (fun t => trickPenalty t r)).sum := by
  induction l with
  | nil =>
    simp [calculate_card_count_penalty, calculate_hearts_penalty,
      calculate_queens_penalty, calculate_ks_penalty,
      calculate_last_trick_penalty]
  | cons t ts ih =>
    simp only [calculate_card_count_penalty, calculate_hearts_penalty,
      calculate_queens_penalty, calculate_ks_penalty,
      calculate_last_trick_penalty, List.map_cons, List.sum_cons,
      trickPenalty] at ih ⊢
    split_ifs at ih ⊢ <;> omega

/-- `calculate_round_score` sums the per-trick penalties of the round. -/
theorem calculate_round_score_eq (p : Player) (r : Nat) :
    calculate_round_score p r = (p.tricks.map (fun t => trickPenalty t r)).sum := by
  unfold calculate_round_score
  exact penalties_split p.tricks r

/-- Score histories after `calculate_scores`: one entry appended per player,
holding the player's per-trick penalty total. -/
theorem calculate_scores_scores (players : List Player) (r : Nat) :
    (calculate_scores players r).map (fun p => p.scores) =
      players.map (fun p =>
        p.scores ++ [ (p.tricks.map (fun t => trickPenalty t r)).sum ]) := by
  unfold calculate_scores
  rw [List.map_map]
  exact List.map_congr_left (fun p _ => by simp [calculate_round_score_eq])

/-- `set_winners` does not touch score histories. -/
theorem set_winners_scores (players : List Player) :
    (set_winners players).map (fun p => p.scores) =
      players.map (fun p => p.scores) := by
  unfold set_winners
  cases (players.map (fun p => p.scores.sum)).min? with
  | none => rfl
  | some lowest =>
    rw [List.map_map]
    exact List.map_congr_left (fun p _ => by
      by_cases h : p.scores.sum = lowest <;> simp [Function.comp, h])

/-- `clear_tricks` does not touch score histories. -/
theorem clear_tricks_scores (players : List Player) :
    (clear_tricks players).map (fun p => p.scores) =
      players.map (fun p => p.scores) := by
  unfold clear_tricks
  rw [List.map_map]
  rfl

/-- Hand assignment does not touch score histories. -/
theorem assign_hands_scores (players : List Player) (hands : List (List String))
    (hlen : players.length ≤ hands.length) :
    (assign_hands players hands).map (fun p => p.scores) =
      players.map (fun p => p.scores) := by
  induction players generalizing hands with
  | nil => rfl
  | cons p ps ih =>
    cases hands with
    | nil => simp at hlen
    | cons h hs =>
      simp only [assign_hands, List.zipWith_cons_cons, List.map_cons,
        List.length_cons] at *
      exact congrArg (List.cons _) (ih hs (by omega))

/-- The dealing loop always produces one hand per player. -/
theorem deal_go_length (hand_size : Nat) :
    ∀ (k : Nat) (deck : List String), (deal_go hand_size k deck).length = k := by
  intro k
  induction k with
  | zero => intro deck; rfl
  | succ n ih => intro deck; simp [deal_go, ih]

/-- `deal_hands` always produces one hand per player. -/
theorem deal_hands_length (deck : List String) (n : Nat) :
    (deal_hands deck n).length = n :=
  deal_go_length _ n deck

/-- Score histories across a full `advance_round`: exactly one entry appended
per player, per-trick penalty total of the finished round, whichever branch
is taken. -/
theorem advance_round_scores (deck : List String) (st : GState) :
    (advance_round deck st).players.map (fun p => p.scores) =
      st.players.map (fun p =>
        p.scores ++
          [ (p.tricks.map (fun t => trickPenalty t (st.current_round + 1))).sum ]) := by
  unfold advance_round
  by_cases h5 : 5 ≤ st.current_round + 1
  · rw [if_pos h5]
    unfold complete_game
    simp only
    rw [set_winners_scores, calculate_scores_scores]
  · rw [if_neg h5]
    unfold setup_new_round
    simp only
    rw [clear_tricks_scores,
      assign_hands_scores _ _ (le_of_eq (deal_hands_length deck _).symm),
      calculate_scores_scores]

/-! ## C5 -/

/-- C5: after a completed round, `calculate_scores` (invoked once by
`_advance_round`) appends to each player's score history exactly one entry —
the sum of the per-trick penalties over the tricks that player took this
round — and leaves all existing entries untouched; the same holds across the
whole `advance_round` step in both of its branches. -/
theorem c5_round_scores_appended :
    (∀ (players : List Player) (r : Nat),
      calculate_scores players r = players.map (fun p =>
        { p with scores :=
            p.scores ++ [ (p.tricks.map (fun t => trickPenalty t r)).sum ] })) ∧
    (∀ (deck : List String) (st : GState),
      (advance_round deck st).players.map (fun p => p.scores) =
        st.players.map (fun p =>
          p.scores ++
            [ (p.tricks.map (fun t => trickPenalty t (st.current_round + 1))).sum ])) := by
  constructor
  · intro players r
    unfold calculate_scores
    exact List.map_congr_left (fun p _ => by rw [calculate_round_score_eq])
  · exact advance_round_scores

/-! ## Frame lemmas for round advancement -/

/-- `calculate_scores` preserves the number of players. -/
theorem calculate_scores_length (players : List Player) (r : Nat) :
    (calculate_scores players r).length = players.length := by
  simp [calculate_scores]

/-- `calculate_scores` does not touch hands. -/
theorem calculate_scores_hands (players : List Player) (r : Nat) :
    (calculate_scores players r).map (fun p => p.hand) =
      players.map (fun p => p.hand) := by
  unfold calculate_scores
  rw [List.map_map]
  rfl

/-- `set_winners` does not touch hands. -/
theorem set_winners_hands (players : List Player) :
    (set_winners players).map (fun p => p.hand) =
      players.map (fun p => p.hand) := by
  unfold set_winners
  cases (players.map (fun p => p.scores.sum)).min? with
  | none => rfl
  | some lowest =>
    rw [List.map_map]
    exact List.map_congr_left (fun p _ => by
      by_cases h : p.scores.sum = lowest <;> simp [Function.comp, h])

/-- `clear_tricks` does not touch hands. -/
theorem clear_tricks_hands (players : List Player) :
    (clear_tricks players).map (fun p => p.hand) =
      players.map (fun p => p.hand) := by
  unfold clear_tricks
  rw [List.map_map]
  rfl

/-- Assigning one hand per player makes the hands exactly the dealt list. -/
theorem assign_hands_hands (players : List Player) (hands : List (List String))
    (hlen : hands.length = players.length) :
    (assign_hands players hands).map (fun p => p.hand) = hands := by
  induction players generalizing hands with
  | nil =>
    cases hands with
    | nil => rfl
    | cons h hs => simp at hlen
  | cons p ps ih =>
    cases hands with
    | nil => simp at hlen
    | cons h hs =>
      simp only [assign_hands, List.zipWith_cons_cons, List.map_cons,
        List.length_cons] at *
      exact congrArg (List.cons _) (ih hs (by omega))

/-- With players present, `set_winners` flags at least one winner. -/
theorem set_winners_exists (players : List Player) (hne : players ≠ []) :
    ∃ p ∈ set_winners players, p.is_winner = true := by
  unfold set_winners
  cases hmin : (players.map (fun p => p.scores.sum)).min? with
  | none =>
    exact absurd (List.min?_eq_none_iff.mp hmin) (by simp [hne])
  | some lowest =>
    have hmem : lowest ∈ players.map (fun p => p.scores.sum) :=
      List.min?_mem (fun a b => min_choice a b) hmin
    rcases List.mem_map.mp hmem with ⟨p, hp, hsum⟩
    refine ⟨{ p with is_winner := true }, ?_, rfl⟩
    rw [List.mem_map]
    exact ⟨p, hp, by rw [if_pos hsum]⟩

/-- Completing branch of `advance_round`: at the threshold the phase becomes
complete, no new hands are dealt, and (with players present) a winner is
flagged. -/
theorem advance_round_complete (deck : List String) (st : GState)
    (h5 : 5 ≤ st.current_round + 1) :
    (advance_round deck st).game_phase = GamePhase.GAME_COMPLETE ∧
    (advance_round deck st).current_round = st.current_round + 1 ∧
    (advance_round deck st).players.map (fun p => p.hand) =
      st.players.map (fun p => p.hand) ∧
    (st.players ≠ [] → ∃ p ∈ (advance_round deck st).players, p.is_winner = true) := by
  unfold advance_round
  rw [if_pos h5]
  unfold complete_game
  refine ⟨rfl, rfl, ?_, ?_⟩
  · simp only
    rw [set_winners_hands, calculate_scores_hands]
  · intro hne
    simp only
    apply set_winners_exists
    simp [calculate_scores, hne]

/-- Continuing branch of `advance_round`: below the threshold the phase is
untouched, the round counter advances, and fresh hands are dealt. -/
theorem advance_round_continue (deck : List String) (st : GState)
    (h5 : st.current_round + 1 < 5) :
    (advance_round deck st).game_phase = st.game_phase ∧
    (advance_round deck st).current_round = st.current_round + 1 ∧
    (advance_round deck st).players.map (fun p => p.hand) =
      deal_hands deck st.players.length := by
  unfold advance_round
  rw [if_neg (by omega)]
  unfold setup_new_round
  refine ⟨rfl, rfl, ?_⟩
  simp only
  rw [clear_tricks_hands,
    assign_hands_hands _ _ (deal_hands_length deck _),
    calculate_scores_length]

/-- Each `advance_round` adds exactly one score entry per player. -/
theorem advance_round_scores_len (deck : List String) (st : GState) :
    (advance_round deck st).players.map (fun p => p.scores.length) =
      st.players.map (fun p => p.scores.length + 1) := by
  have h := congrArg (List.map List.length) (advance_round_scores deck st)
  rw [List.map_map, List.map_map] at h
  rw [show (List.length ∘ fun p : Player => p.scores)
      = fun p : Player => p.scores.length from rfl] at h
  rw [h]
  exact List.map_congr_left (fun p _ => by simp [Function.comp])

/-- Running `k` round ends inside the 5-round window keeps the game in
progress, advances the round counter by `k` and appends `k` score entries. -/
theorem run_rounds_in_window (decks : Nat → List String) :
    ∀ (k : Nat) (st : GState), st.game_phase = GamePhase.IN_PROGRESS →
      st.current_round + k < 5 →
      (run_rounds decks k st).game_phase = GamePhase.IN_PROGRESS ∧
      (run_rounds decks k st).current_round = st.current_round + k ∧
      (run_rounds decks k st).players.map (fun p => p.scores.length) =
        st.players.map (fun p => p.scores.length + k) := by
  intro k
  induction k with
  | zero =>
    intro st hph _
    exact ⟨hph, rfl, by simp [run_rounds]⟩
  | succ j ih =>
    intro st hph hlt
    have hcont := advance_round_continue (decks j) st (by omega)
    have hlen := advance_round_scores_len (decks j) st
    have hrec := ih (advance_round (decks j) st) (hcont.1.trans hph)
      (by rw [hcont.2.1]; omega)
    refine ⟨hrec.1, ?_, ?_⟩
    · show (run_rounds decks j (advance_round (decks j) st)).current_round = _
      rw [hrec.2.1, hcont.2.1]
      omega
    · show (run_rounds decks j (advance_round (decks j) st)).players.map _ = _
      have hlen2 := congrArg (List.map (fun n => n + j)) hlen
      rw [List.map_map, List.map_map] at hlen2
      simp only [Function.comp_def] at hlen2
      rw [hrec.2.2]
      exact hlen2.trans (List.map_congr_left (fun p _ => by omega))

/-- Running exactly enough round ends to reach the threshold completes the
game and appends one score entry per round run. -/
theorem run_rounds_to_complete (decks : Nat → List String) :
    ∀ (k : Nat) (st : GState), st.game_phase = GamePhase.IN_PROGRESS →
      1 ≤ k → st.current_round + k = 5 →
      (run_rounds decks k st).game_phase = GamePhase.GAME_COMPLETE ∧
      (run_rounds decks k st).current_round = 5 ∧
      (run_rounds decks k st).players.map (fun p => p.scores.length) =
        st.players.map (fun p => p.scores.length + k) := by
  intro k
  induction k with
  | zero => intro st _ h1 _; omega
  | succ j ih =>
    intro st hph _ heq
    cases Nat.eq_zero_or_pos j with
    | inl hj =>
      subst hj
      have hcomp := advance_round_complete (decks 0) st (by omega)
      have hlen := advance_round_scores_len (decks 0) st
      exact ⟨hcomp.1, by rw [show run_rounds decks 1 st =
          advance_round (decks 0) st from rfl, hcomp.2.1]; omega,
        by rw [show run_rounds decks 1 st = advance_round (decks 0) st from rfl,
          hlen]⟩
    | inr hj =>
      have hcont := advance_round_continue (decks j) st (by omega)
      have hlen := advance_round_scores_len (decks j) st
      have hrec := ih (advance_round (decks j) st) (hcont.1.trans hph)
        hj (by rw [hcont.2.1]; omega)
      refine ⟨hrec.1, hrec.2.1, ?_⟩
      show (run_rounds decks j (advance_round (decks j) st)).players.map _ = _
      have hlen2 := congrArg (List.map (fun n => n + j)) hlen
      rw [List.map_map, List.map_map] at hlen2
      simp only [Function.comp_def] at hlen2
      rw [hrec.2.2]
      exact hlen2.trans (List.map_congr_left (fun p _ => by omega))

/-! ## C7 -/

/-- C7: the game is exactly 5 scored rounds.  `start_game` marks the game in
progress and deals the first round; below the threshold a round end advances
the counter and deals fresh hands; at the threshold (round counter reaching
5) it completes the game, determines winners and deals nothing; from a fresh
round counter the phase stays in progress through 4 round ends, becomes
`GAME_COMPLETE` at the 5th with exactly 5 score entries appended per player,
and once complete a `play_card` action (the only route to a further deal)
leaves the state untouched. -/
theorem c7_five_scored_rounds :
    (∀ (deck fresh_ids : List String) (st : GState),
      (start_game deck fresh_ids st).game_phase = GamePhase.IN_PROGRESS ∧
      (start_game deck fresh_ids st).players.map (fun p => p.hand)
        = deal_hands deck (fill_bots fresh_ids st.players).length) ∧
    (∀ (deck : List String) (st : GState), 5 ≤ st.current_round + 1 →
      (advance_round deck st).game_phase = GamePhase.GAME_COMPLETE ∧
      (advance_round deck st).players.map (fun p => p.hand)
        = st.players.map (fun p => p.hand) ∧
      (st.players ≠ [] →
        ∃ p ∈ (advance_round deck st).players, p.is_winner = true)) ∧
    (∀ (deck : List String) (st : GState), st.current_round + 1 < 5 →
      (advance_round deck st).game_phase = st.game_phase ∧
      (advance_round deck st).current_round = st.current_round + 1 ∧
      (advance_round deck st).players.map (fun p => p.hand)
        = deal_hands deck st.players.length) ∧
    (∀ (decks : Nat → List String) (st : GState),
      st.game_phase = GamePhase.IN_PROGRESS → st.current_round = 0 →
      (∀ k, k ≤ 4 → (run_rounds decks k st).game_phase = GamePhase.IN_PROGRESS) ∧
      (run_rounds decks 5 st).game_phase = GamePhase.GAME_COMPLETE ∧
      (run_rounds decks 5 st).players.map (fun p => p.scores.length)
        = st.players.map (fun p => p.scores.length + 5)) ∧
    (∀ (gs : GState) (pid card : String),
      gs.game_phase = GamePhase.GAME_COMPLETE →
      play_card_action gs pid card = gs) := by
  refine ⟨?_, ?_, ?_, ?_, ?_⟩
  · intro deck fresh_ids st
    unfold start_game setup_new_round
    refine ⟨rfl, ?_⟩
    simp only
    exact assign_hands_hands _ _ (deal_hands_length deck _)
  · intro deck st h5
    have h := advance_round_complete deck st h5
    exact ⟨h.1, h.2.2.1, h.2.2.2⟩
  · intro deck st h5
    exact advance_round_continue deck st h5
  · intro decks st hph hr0
    refine ⟨?_, ?_, ?_⟩
    · intro k hk
      exact (run_rounds_in_window decks k st hph (by omega)).1
    · exact (run_rounds_to_complete decks 5 st hph (by omega) (by omega)).1
    · exact (run_rounds_to_complete decks 5 st hph (by omega) (by omega)).2.2
  · intro gs pid card hph
    unfold play_card_action
    cases hfind : findPlayer gs.players pid with
    | none => rfl
    | some p =>
      by_cases hcard : card = ""
      · simp [hcard]
      · simp [hcard, hph]

/-- A last-round in-progress state for the C7 witness. -/
def c7FinalRoundState : GState :=
  { current_round := 4,
    game_phase := GamePhase.IN_PROGRESS,
    players := [ { name := "Alice", player_id := "AAAA", scores := [ 3, 3, 3, 3 ] } ] }

/-- A completed-game state for the C7 witness. -/
def c7CompleteState : GState :=
  { game_phase := GamePhase.GAME_COMPLETE,
    players := [ { name := "Alice", player_id := "AAAA", hand := [ "2H" ] } ] }

/-- Witness for C7: a 5th round end completes the game with a winner flagged,
and a play against the completed game is a no-op. -/
theorem c7_witness :
    (advance_round DECK c7FinalRoundState).game_phase = GamePhase.GAME_COMPLETE ∧
    (∃ p ∈ (advance_round DECK c7FinalRoundState).players, p.is_winner = true) ∧
    play_card_action c7CompleteState "AAAA" "2H" = c7CompleteState := by
  refine ⟨?_, ?_, ?_⟩
  · exact (c7_five_scored_rounds.2.1 DECK c7FinalRoundState (by decide)).1
  · exact (c7_five_scored_rounds.2.1 DECK c7FinalRoundState (by decide)).2.2
      (by decide)
  · exact c7_five_scored_rounds.2.2.2.2 c7CompleteState "AAAA" "2H" rfl

/-! ## Dealing properties -/

open scoped List

/-- Sorting a hand permutes it. -/
theorem sortHand_perm (l : List String) : sortHand l ~ l :=
  List.perm_insertionSort keyLe l

/-- Sorting a hand sorts it ascending under the display key. -/
theorem sortHand_sorted (l : List String) : List.Sorted keyLe (sortHand l) :=
  List.sorted_insertionSort keyLe l

/-- With enough cards in the deck, every dealt hand has exactly `hand_size`
cards. -/
theorem deal_go_hand_length (hs : Nat) :
    ∀ (k : Nat) (deck : List String), k * hs ≤ deck.length →
      ∀ h ∈ deal_go hs k deck, h.length = hs := by
  intro k
  induction k with
  | zero =>
    intro deck _ h hh
    simp [deal_go] at hh
  | succ n ih =>
    intro deck hlen h hh
    rw [Nat.succ_mul] at hlen
    simp only [deal_go, List.mem_cons] at hh
    rcases hh with hh | hh
    · subst hh
      rw [(sortHand_perm _).length_eq, List.length_take]
      omega
    · exact ih (deck.drop hs) (by rw [List.length_drop]; omega) h hh

/-- The dealt hands together permute the front `k * hand_size` cards of the
deck; the remainder is never dealt. -/
theorem deal_go_join_perm (hs : Nat) :
    ∀ (k : Nat) (deck : List String),
      (deal_go hs k deck).flatten ~ deck.take (k * hs) := by
  intro k
  induction k with
  | zero => intro deck; simp [deal_go]
  | succ n ih =>
    intro deck
    simp only [deal_go, List.flatten_cons]
    calc sortHand (deck.take hs) ++ (deal_go hs n (deck.drop hs)).flatten
        ~ deck.take hs ++ (deck.drop hs).take (n * hs) :=
          List.Perm.append (sortHand_perm _) (ih (deck.drop hs))
      _ = deck.take (hs + n * hs) := (List.take_add deck hs (n * hs)).symm
      _ = deck.take ((n + 1) * hs) := by rw [Nat.succ_mul, Nat.add_comm]

/-- The i-th dealt hand permutes the i-th consecutive `hand_size` slice of
the deck, taken from the front. -/
theorem deal_go_chunk (hs : Nat) :
    ∀ (k : Nat) (deck : List String) (i : Nat) (h : List String),
      (deal_go hs k deck).get? i = some h →
      h ~ (deck.drop (i * hs)).take hs := by
  intro k
  induction k with
  | zero => intro deck i h hh; simp [deal_go] at hh
  | succ n ih =>
    intro deck i h hh
    cases i with
    | zero =>
      simp only [deal_go, List.get?_cons_zero, Option.some.injEq] at hh
      rw [← hh]
      simpa using sortHand_perm (deck.take hs)
    | succ j =>
      simp only [deal_go, List.get?_cons_succ] at hh
      have hrec := ih (deck.drop hs) j h hh
      rw [List.drop_drop] at hrec
      rw [show (j + 1) * hs = hs + j * hs by rw [Nat.succ_mul, Nat.add_comm]]
      exact hrec

/-- Every dealt hand is sorted ascending under the display key. -/
theorem deal_go_sorted (hs : Nat) :
    ∀ (k : Nat) (deck : List String),
      ∀ h ∈ deal_go hs k deck, List.Sorted keyLe h := by
  intro k
  induction k with
  | zero => intro deck h hh; simp [deal_go] at hh
  | succ n ih =>
    intro deck h hh
    simp only [deal_go, List.mem_cons] at hh
    rcases hh with hh | hh
    · subst hh
      exact sortHand_sorted _
    · exact ih (deck.drop hs) h hh

/-! ## C8 -/

/-- C8: dealing the full 52-card deck to `n` players (1 to 4) yields `n`
hands of exactly `52 / n` cards, the i-th hand a permutation of the i-th
consecutive front slice of the shuffled deck, with no duplicate card across
the union, pairwise-disjoint hands, any remainder left undealt (the union
permutes exactly the front `n * (52 / n)` cards), and each hand sorted
ascending by (suit display index, rank). -/
theorem c8_deal_hands (deck : List String) (n : Nat)
    (hlen : deck.length = 52) (hnd : deck.Nodup) (hn1 : 1 ≤ n) (hn4 : n ≤ 4) :
    (deal_hands deck n).length = n ∧
    (∀ h ∈ deal_hands deck n, h.length = 52 / n) ∧
    (∀ (i : Nat) (h : List String), (deal_hands deck n).get? i = some h →
      h ~ (deck.drop (i * (52 / n))).take (52 / n)) ∧
    (deal_hands deck n).flatten ~ deck.take (n * (52 / n)) ∧
    (deal_hands deck n).flatten.Nodup ∧
    List.Pairwise List.Disjoint (deal_hands deck n) ∧
    (∀ h ∈ deal_hands deck n, List.Sorted keyLe h) := by
  have hmul : n * (52 / n) ≤ 52 := by
    calc n * (52 / n) = 52 / n * n := Nat.mul_comm _ _
      _ ≤ 52 := Nat.div_mul_le_self 52 n
  have hhs : deck.length / n = 52 / n := by rw [hlen]
  unfold deal_hands
  rw [hhs]
  have hjoin : (deal_go (52 / n) n deck).flatten ~ deck.take (n * (52 / n)) :=
    deal_go_join_perm (52 / n) n deck
  have hnodup : (deal_go (52 / n) n deck).flatten.Nodup :=
    hjoin.nodup_iff.mpr ((List.take_sublist _ _).nodup hnd)
  refine ⟨deal_go_length _ n deck, ?_, ?_, hjoin, hnodup, ?_, ?_⟩
  · exact deal_go_hand_length _ n deck (by omega)
  · exact deal_go_chunk _ n deck
  · exact (List.nodup_flatten.mp hnodup).2
  · exact deal_go_sorted _ n deck

/-- Witness for C8 at the canonical deck and four players. -/
theorem c8_witness :
    (deal_hands DECK 4).length = 4 ∧
    (deal_hands DECK 4).flatten.Nodup ∧
    List.Pairwise List.Disjoint (deal_hands DECK 4) := by
  have h := c8_deal_hands DECK 4 (by decide) (by decide) (by decide) (by decide)
  exact ⟨h.1, h.2.2.2.2.1, h.2.2.2.2.2.1⟩
